import Mathlib

/-!
Verification of the VBVR-DataFactory task-processing pipeline.

This file gives a shallow embedding of the pipeline's core operations and
proves (or refutes) the specification's claims about them:

* `src/vbvrdatafactory/core/dedup.py` — the DynamoDB-backed
  `DedupChecker.check_and_register` primitive (conditional put keyed by
  `(generator_name, param_hash)`, ownership lookup on conflict, bounded
  throttle retry with exponential backoff);
* `src/lambda_handler.py` — the sample locator inside `process_task`
  (listing of a domain-task directory, `get_sort_key` ordering, empty-dir
  cleanup, global id assignment) and `upload_directory_to_s3`
  (upload pass followed by a delete pass);
* `src/vbvrdatafactory/lambda_handler/handler.py` — `_dedup_samples`
  (bounded dedup/regeneration rounds) and `_batch_regenerate`
  (batched regeneration with positional pairing).

The registry is modelled as an association list keyed by
`(generator_name, param_hash)`; the filesystem state relevant to dedup is
modelled as an association list from sample id to the `param_hash` found in
the sample directory's `metadata.json` (if any).  External effects
(DynamoDB faults, the generator subprocess, S3 transfers) are modelled by
explicit oracle functions so that the control flow of the Python code can
be reproduced exactly.
-/

/-! ## Dedup registry model (`src/vbvrdatafactory/core/dedup.py`) -/

/-- One DynamoDB item of the dedup table: at most one per
`(generator_name, param_hash)` key. -/
structure DedupRecord where
  generator_name : String
  param_hash : String
  sample_id : String
deriving DecidableEq

/-- The dedup table contents, as a list of items. -/
abbrev Registry := List DedupRecord

/-- Whether a record carries the given compound key. -/
def keyMatches (g h : String) (r : DedupRecord) : Bool :=
  r.generator_name == g && r.param_hash == h

/-- Point lookup by compound key, returning the owning `sample_id`
(models `table.get_item` with a `sample_id` projection). -/
def lookupReg (reg : Registry) (g h : String) : Option String :=
  match reg.find? (keyMatches g h) with
  | some r => some r.sample_id
  | none => none

/-- Number of records stored under a compound key. -/
def countKey (reg : Registry) (g h : String) : Nat :=
  (reg.filter (keyMatches g h)).length

/-- Registry well-formedness: at most one record per compound key —
DynamoDB guarantees this for a table keyed by
`(generator_name, param_hash)`. -/
def wfReg (reg : Registry) : Prop :=
  ∀ g h, countKey reg g h ≤ 1

/-- `DedupChecker._is_owned_by`: read the owning `sample_id` of an
existing record and compare with the caller's. -/
def is_owned_by (reg : Registry) (g h sid : String) : Bool :=
  match lookupReg reg g h with
  | some existing => existing == sid
  | none => false

/-- `DedupChecker.check_and_register` on the success path (no throttling,
no fault): the conditional put succeeds iff no item exists under the key,
inserting the caller's record; on `ConditionalCheckFailedException` the
result of `_is_owned_by` is returned and the registry is unchanged. -/
def check_and_register (reg : Registry) (g h sid : String) : Bool × Registry :=
  match lookupReg reg g h with
  | none => (true, ⟨g, h, sid⟩ :: reg)
  | some _ => (is_owned_by reg g h sid, reg)

theorem lookupReg_nil (g h : String) : lookupReg [] g h = none := rfl

theorem lookupReg_cons (r : DedupRecord) (reg : Registry) (g h : String) :
    lookupReg (r :: reg) g h =
      if keyMatches g h r then some r.sample_id else lookupReg reg g h := by
  simp only [lookupReg, List.find?]
  cases hk : keyMatches g h r <;> simp [hk]

theorem countKey_eq_zero_of_lookup_none (reg : Registry) (g h : String)
    (hl : lookupReg reg g h = none) : countKey reg g h = 0 := by
  induction reg with
  | nil => rfl
  | cons r rest ih =>
    rw [lookupReg_cons] at hl
    by_cases hk : keyMatches g h r = true
    · simp [hk] at hl
    · simp only [hk] at hl
      simp only [countKey, List.filter]
      rw [show keyMatches g h r = false by simpa using hk]
      exact ih (by simpa using hl)

theorem countKey_cons (r : DedupRecord) (reg : Registry) (g h : String) :
    countKey (r :: reg) g h =
      (if keyMatches g h r then 1 else 0) + countKey reg g h := by
  simp only [countKey, List.filter]
  cases hk : keyMatches g h r <;> simp [hk, Nat.add_comm]

/-- Inserting a fresh record keeps the registry well-formed. -/
theorem wfReg_insert (reg : Registry) (g h sid : String)
    (hw : wfReg reg) (hl : lookupReg reg g h = none) :
    wfReg (⟨g, h, sid⟩ :: reg) := by
  intro g' h'
  rw [countKey_cons]
  by_cases hk : keyMatches g' h' ⟨g, h, sid⟩ = true
  · have hgh : g' = g ∧ h' = h := by
      simp only [keyMatches, Bool.and_eq_true, beq_iff_eq] at hk
      exact ⟨hk.1.symm, hk.2.symm⟩
    rw [hgh.1, hgh.2]
    have h0 := countKey_eq_zero_of_lookup_none reg g h hl
    simp [hk, h0]
    split <;> simp
  · simp only [hk]
    simpa using hw g' h'

theorem countKey_insert_self (reg : Registry) (g h sid : String)
    (hfree : lookupReg reg g h = none) :
    countKey ((⟨g, h, sid⟩ : DedupRecord) :: reg) g h = 1 := by
  rw [countKey_cons, countKey_eq_zero_of_lookup_none reg g h hfree]
  simp [keyMatches]

/-- **C1** — Dedup exclusivity.  Starting from a well-formed registry with
no owner for `(g, h)`, two sequential `check_and_register` calls with
distinct sample ids (in either order, as both ids are universally
quantified) give `true` to the first caller and `false` to the second;
afterwards exactly one record exists under `(g, h)` and the registry stays
well-formed, so it never holds more than one record per key. -/
theorem C1_dedup_exclusivity (reg : Registry) (g h sid1 sid2 : String)
    (hw : wfReg reg) (hne : sid1 ≠ sid2) (hfree : lookupReg reg g h = none) :
    (check_and_register reg g h sid1).1 = true ∧
    (check_and_register (check_and_register reg g h sid1).2 g h sid2).1 = false ∧
    countKey (check_and_register (check_and_register reg g h sid1).2 g h sid2).2 g h = 1 ∧
    wfReg (check_and_register (check_and_register reg g h sid1).2 g h sid2).2 := by
  have h1 : check_and_register reg g h sid1 = (true, ⟨g, h, sid1⟩ :: reg) := by
    simp [check_and_register, hfree]
  have hkey : keyMatches g h ⟨g, h, sid1⟩ = true := by
    simp [keyMatches]
  have hl1 : lookupReg (⟨g, h, sid1⟩ :: reg) g h = some sid1 := by
    rw [lookupReg_cons, hkey]
    simp
  have h2 : check_and_register (⟨g, h, sid1⟩ :: reg) g h sid2 =
      ((sid1 == sid2), ⟨g, h, sid1⟩ :: reg) := by
    simp [check_and_register, is_owned_by, hl1]
  have hcount : countKey (⟨g, h, sid1⟩ :: reg) g h = 1 :=
    countKey_insert_self reg g h sid1 hfree
  refine ⟨by rw [h1], ?_, ?_, ?_⟩
  · rw [h1]
    simp only [h2]
    simpa using hne
  · rw [h1]
    simp only [h2]
    exact hcount
  · rw [h1]
    simp only [h2]
    exact wfReg_insert reg g h sid1 hw hfree

/-- Concrete instantiation of `C1_dedup_exclusivity` on an empty registry
with sample ids `"7"` and `"999"`. -/
theorem C1_dedup_exclusivity_witness :
    (check_and_register [] "gen" "hash" "7").1 = true ∧
    (check_and_register (check_and_register [] "gen" "hash" "7").2 "gen" "hash" "999").1 = false ∧
    countKey (check_and_register (check_and_register [] "gen" "hash" "7").2 "gen" "hash" "999").2
      "gen" "hash" = 1 ∧
    wfReg (check_and_register (check_and_register [] "gen" "hash" "7").2 "gen" "hash" "999").2 :=
  C1_dedup_exclusivity [] "gen" "hash" "7" "999"
    (by intro g h; simp [countKey]) (by decide) rfl

/-- **C2** — Dedup idempotence.  Calling `check_and_register` twice with
the identical `(generator_name, param_hash, sample_id)` triple, starting
from a registry with no owner for the hash, returns `true` both times and
leaves exactly one record under `(g, h)` (the second call changes
nothing, modelling at-least-once re-delivery). -/
theorem C2_dedup_idempotence (reg : Registry) (g h sid : String)
    (hfree : lookupReg reg g h = none) :
    (check_and_register reg g h sid).1 = true ∧
    (check_and_register (check_and_register reg g h sid).2 g h sid).1 = true ∧
    (check_and_register (check_and_register reg g h sid).2 g h sid).2 =
      (check_and_register reg g h sid).2 ∧
    countKey (check_and_register (check_and_register reg g h sid).2 g h sid).2 g h = 1 := by
  have h1 : check_and_register reg g h sid = (true, ⟨g, h, sid⟩ :: reg) := by
    simp [check_and_register, hfree]
  have hkey : keyMatches g h ⟨g, h, sid⟩ = true := by
    simp [keyMatches]
  have hl1 : lookupReg (⟨g, h, sid⟩ :: reg) g h = some sid := by
    rw [lookupReg_cons, hkey]
    simp
  have h2 : check_and_register (⟨g, h, sid⟩ :: reg) g h sid =
      (true, ⟨g, h, sid⟩ :: reg) := by
    simp [check_and_register, is_owned_by, hl1]
  refine ⟨by rw [h1], by rw [h1]; simp only [h2], by rw [h1]; simp only [h2], ?_⟩
  rw [h1]
  simp only [h2]
  exact countKey_insert_self reg g h sid hfree

/-- Concrete instantiation of `C2_dedup_idempotence` on an empty registry. -/
theorem C2_dedup_idempotence_witness :
    (check_and_register [] "gen" "hash" "7").1 = true ∧
    (check_and_register (check_and_register [] "gen" "hash" "7").2 "gen" "hash" "7").1 = true ∧
    (check_and_register (check_and_register [] "gen" "hash" "7").2 "gen" "hash" "7").2 =
      (check_and_register [] "gen" "hash" "7").2 ∧
    countKey (check_and_register (check_and_register [] "gen" "hash" "7").2 "gen" "hash" "7").2
      "gen" "hash" = 1 :=
  C2_dedup_idempotence [] "gen" "hash" "7" rfl

/-! ## Throttle retry loop of `check_and_register` (C7)

The `for attempt in range(MAX_THROTTLE_RETRIES)` loop of
`DedupChecker.check_and_register`: each iteration performs one `put_item`;
a `ConditionalCheckFailedException` returns `_is_owned_by` immediately, a
throttling error sleeps `2 ** attempt` seconds and continues, any other
`ClientError` is re-raised, and exhaustion of the loop re-raises the last
throttling error.  Faults of the DynamoDB call are injected through an
oracle mapping the attempt number to an optional fault. -/

/-- A fault of one `put_item` call: either a throttling error
(`ProvisionedThroughputExceededException` / `ThrottlingException`) or any
other `ClientError` carrying its error code. -/
inductive DDBFault where
  | throttle : DDBFault
  | fatal (code : String) : DDBFault
deriving DecidableEq

/-- Outcome of `check_and_register` in the faulty model: a returned
boolean, a re-raised non-throttle `ClientError`, or the re-raised last
throttling error after retry exhaustion. -/
inductive CAROutcome where
  | ret (b : Bool) : CAROutcome
  | raiseFatal (code : String) : CAROutcome
  | raiseThrottle : CAROutcome
deriving DecidableEq

/-- `MAX_THROTTLE_RETRIES` of `src/vbvrdatafactory/core/dedup.py`. -/
def MAX_THROTTLE_RETRIES : Nat := 3

/-- The retry loop from attempt number `attempt` with
`MAX_THROTTLE_RETRIES - attempt` iterations left (`fuel`).  Returns the
outcome, the final registry, and the list of sleeps performed (seconds,
in order).  Running out of fuel models falling off the `for` loop and
re-raising the last throttling error. -/
def carAttempts (faults : Nat → Option DDBFault) (g h sid : String) :
    Registry → Nat → Nat → CAROutcome × Registry × List Nat
  | reg, _, 0 => (CAROutcome.raiseThrottle, reg, [])
  | reg, attempt, fuel + 1 =>
    match faults attempt with
    | some DDBFault.throttle =>
      let r := carAttempts faults g h sid reg (attempt + 1) fuel
      (r.1, r.2.1, 2 ^ attempt :: r.2.2)
    | some (DDBFault.fatal code) => (CAROutcome.raiseFatal code, reg, [])
    | none =>
      match lookupReg reg g h with
      | none => (CAROutcome.ret true, ⟨g, h, sid⟩ :: reg, [])
      | some _ => (CAROutcome.ret (is_owned_by reg g h sid), reg, [])

/-- `DedupChecker.check_and_register` with injected DynamoDB faults:
the loop starts at attempt `0` with `MAX_THROTTLE_RETRIES` iterations. -/
def check_and_register_faulty (faults : Nat → Option DDBFault)
    (reg : Registry) (g h sid : String) : CAROutcome × Registry × List Nat :=
  carAttempts faults g h sid reg 0 MAX_THROTTLE_RETRIES

/-- **C7** — Throttle retry with exponential backoff.  For every fault
pattern: (a) if the put throttles on every attempt, the call performs
exactly `MAX_THROTTLE_RETRIES` attempts sleeping `2 ^ attempt` seconds
after each (`[1, 2, 4]`), leaves the registry unchanged, and re-raises
the last throttling error; (b) if attempts `0..k-1` throttle and attempt
`k < MAX_THROTTLE_RETRIES` fails with any non-throttle error code, that
error propagates immediately — the sleeps are exactly those of the `k`
preceding throttles and the registry is unchanged; (c) if attempts
`0..k-1` throttle and attempt `k` succeeds without fault, the call
returns the normal conditional-put result after the same `k` backoffs. -/
theorem C7_throttle_retry (faults : Nat → Option DDBFault)
    (reg : Registry) (g h sid : String) :
    ((∀ i, i < MAX_THROTTLE_RETRIES → faults i = some DDBFault.throttle) →
      check_and_register_faulty faults reg g h sid =
        (CAROutcome.raiseThrottle, reg, [1, 2, 4])) ∧
    (∀ k code, k < MAX_THROTTLE_RETRIES →
      (∀ i, i < k → faults i = some DDBFault.throttle) →
      faults k = some (DDBFault.fatal code) →
      check_and_register_faulty faults reg g h sid =
        (CAROutcome.raiseFatal code, reg, (List.range k).map (fun i => 2 ^ i))) ∧
    (∀ k, k < MAX_THROTTLE_RETRIES →
      (∀ i, i < k → faults i = some DDBFault.throttle) →
      faults k = none →
      check_and_register_faulty faults reg g h sid =
        (CAROutcome.ret (check_and_register reg g h sid).1,
          (check_and_register reg g h sid).2,
          (List.range k).map (fun i => 2 ^ i))) := by
  refine ⟨?_, ?_, ?_⟩
  · intro hall
    have h0 := hall 0 (by decide)
    have h1 := hall 1 (by decide)
    have h2 := hall 2 (by decide)
    simp [check_and_register_faulty, MAX_THROTTLE_RETRIES, carAttempts, h0, h1, h2]
  · intro k code hk hpre hf
    have hk3 : k < 3 := hk
    interval_cases k
    · simp [check_and_register_faulty, MAX_THROTTLE_RETRIES, carAttempts, hf]
    · have h0 := hpre 0 (by decide)
      simp [check_and_register_faulty, MAX_THROTTLE_RETRIES, carAttempts, h0, hf]
      decide
    · have h0 := hpre 0 (by decide)
      have h1 := hpre 1 (by decide)
      simp [check_and_register_faulty, MAX_THROTTLE_RETRIES, carAttempts, h0, h1, hf]
      decide
  · intro k hk hpre hf
    have hk3 : k < 3 := hk
    interval_cases k
    · simp only [check_and_register_faulty, MAX_THROTTLE_RETRIES, carAttempts, hf,
        check_and_register]
      cases hl : lookupReg reg g h <;> simp [hl]
    · have h0 := hpre 0 (by decide)
      simp only [check_and_register_faulty, MAX_THROTTLE_RETRIES, carAttempts, h0, hf,
        check_and_register]
      cases hl : lookupReg reg g h <;> simp [hl] <;> decide
    · have h0 := hpre 0 (by decide)
      have h1 := hpre 1 (by decide)
      simp only [check_and_register_faulty, MAX_THROTTLE_RETRIES, carAttempts, h0, h1, hf,
        check_and_register]
      cases hl : lookupReg reg g h <;> simp [hl] <;> decide

/-- Concrete instantiation of `C7_throttle_retry`: with a DynamoDB that
throttles every attempt, the call on the empty registry sleeps 1, 2 and
4 seconds and then re-raises the throttling error. -/
theorem C7_throttle_retry_witness :
    check_and_register_faulty (fun _ => some DDBFault.throttle) [] "gen" "hash" "7" =
      (CAROutcome.raiseThrottle, [], [1, 2, 4]) :=
  (C7_throttle_retry (fun _ => some DDBFault.throttle) [] "gen" "hash" "7").1
    (fun _ _ => rfl)

/-! ## Sample locator (`src/lambda_handler.py`, `process_task` lines 164-227)

`process_task` lists the entries of a domain-task directory, sorts them
with `get_sort_key` (the last integer substring of the name if any digits
occur, otherwise the name itself), and walks the sorted listing: entries
that are not directories are skipped; directories with no `*.png`,
`*.txt` or `*.mp4` file are skipped after an `rmdir` attempt (which only
succeeds on an actually empty directory, failures passed over); the rest
receive global ids `str(start_index + local_index)` in order.

In Python, `get_sort_key` returns an `int` for a name containing digits
and a `str` otherwise, so `task_dirs.sort` raises `TypeError` on a mixed
listing; the surrounding `try` block catches it and `continue`s, skipping
the whole domain-task directory.  The model returns `none` in that case.
-/

/-- One entry of a domain-task directory listing: its name, whether it is
a directory, the names of the files directly inside it, and the
`param_hash` field of its `metadata.json` (if present, used only by the
dedup/regeneration model below). -/
structure Candidate where
  name : String
  isDir : Bool
  files : List String
  param_hash : Option String
deriving DecidableEq

/-- Code-point lexicographic strict order on character lists, as Python
compares strings. -/
def lexLt : List Char → List Char → Bool
  | [], [] => false
  | [], _ :: _ => true
  | _ :: _, [] => false
  | c :: cs, d :: ds =>
    if c.toNat < d.toNat then true
    else if d.toNat < c.toNat then false
    else lexLt cs ds

/-- Python `a <= b` on strings. -/
def strLe (a b : String) : Bool := !(lexLt b.toList a.toList)

/-- Value of the last maximal digit run of the name, if the name contains
any digit — `int(re.findall(r'\d+', name)[-1])` in `get_sort_key`.
`cur` is the run in progress, `last` the last completed run. -/
def lastNumberAux : List Char → Option Nat → Option Nat → Option Nat
  | [], cur, last =>
    match cur with
    | some n => some n
    | none => last
  | c :: cs, cur, last =>
    if c.isDigit then
      lastNumberAux cs (some ((cur.getD 0) * 10 + (c.toNat - 48))) last
    else
      match cur with
      | some n => lastNumberAux cs none (some n)
      | none => lastNumberAux cs none last

/-- `int(re.findall(r'\d+', name)[-1])` when the name contains a digit. -/
def lastNumber (name : String) : Option Nat :=
  lastNumberAux name.toList none none

/-- `get_sort_key` of `process_task`: an integer key for names containing
digits, the name itself otherwise (Python returns `int` or `str`). -/
def get_sort_key (name : String) : Sum Nat String :=
  match lastNumber name with
  | some n => Sum.inl n
  | none => Sum.inr name

/-- Stable insertion of `a` (originally located before every element of
the list) for a boolean `≤` test. -/
def insertBy (le : α → α → Bool) (a : α) : List α → List α
  | [] => [a]
  | b :: bs => if le a b then a :: b :: bs else b :: insertBy le a bs

/-- Stable insertion sort, as `list.sort` is stable in Python. -/
def insSortBy (le : α → α → Bool) : List α → List α
  | [] => []
  | a :: as => insertBy le a (insSortBy le as)

/-- Numeric-key comparison used when every entry name contains a digit. -/
def leNum (a b : Candidate) : Bool :=
  decide ((lastNumber a.name).getD 0 ≤ (lastNumber b.name).getD 0)

/-- Name comparison used when no entry name contains a digit. -/
def leName (a b : Candidate) : Bool := strLe a.name b.name

/-- `task_dirs.sort(key=get_sort_key)`: sorts by integer key when every
name contains a digit, by name when none does, and raises `TypeError`
(`none`, whole directory skipped) when `int` and `str` keys are mixed —
Python cannot compare them, and any comparison sort must compare some
`int`-keyed entry with some `str`-keyed one. -/
def sortCandidates (cs : List Candidate) : Option (List Candidate) :=
  if cs.all (fun c => (lastNumber c.name).isSome) then some (insSortBy leNum cs)
  else if cs.all (fun c => (lastNumber c.name).isNone) then some (insSortBy leName cs)
  else none

/-- Whether an entry name carries one of the recognized artifact
extensions (`*.png`, `*.txt`, `*.mp4` globs of `process_task`). -/
def hasExtension (f ext : String) : Bool :=
  let s := f.toList
  let e := ext.toList
  decide (e.length ≤ s.length) && (s.drop (s.length - e.length) == e)

/-- The `has_files` check of `process_task`: at least one entry matching
`*.png`, `*.txt` or `*.mp4` directly inside the candidate directory. -/
def hasTaskFiles (c : Candidate) : Bool :=
  c.files.any (fun f =>
    hasExtension f ".png" || hasExtension f ".txt" || hasExtension f ".mp4")

/-- A candidate that is mapped to a global id: a directory with at least
one recognized artifact file. -/
def acceptCand (c : Candidate) : Bool := c.isDir && hasTaskFiles c

/-- Result of walking one sorted domain-task directory listing:
`assigned` pairs each accepted original name with its global id in
order, `deleted` lists the names removed in place by the rejection
branch. -/
structure LocateResult where
  assigned : List (String × String)
  deleted : List String
deriving DecidableEq

/-- The per-entry loop of `process_task` (lines 186-227) over the sorted
listing, carrying `local_index`: non-directories are skipped; rejected
directories are `rmdir`ed — effective only when the directory is truly
empty, the failure is swallowed otherwise — and consume no id; accepted
directories get id `str(start_index + local_index)`. -/
def locAux (start : Nat) : List Candidate → Nat → LocateResult
  | [], _ => ⟨[], []⟩
  | c :: cs, i =>
    if c.isDir then
      if hasTaskFiles c then
        let r := locAux start cs (i + 1)
        ⟨(c.name, toString (start + i)) :: r.assigned, r.deleted⟩
      else
        let r := locAux start cs i
        if c.files.isEmpty then ⟨r.assigned, c.name :: r.deleted⟩ else r
    else locAux start cs i

/-- Sample location for one domain-task directory: sort the listing with
`get_sort_key`, then walk it assigning global ids; `none` when the sort
raises `TypeError` and the directory is skipped. -/
def locateSamples (start : Nat) (cs : List Candidate) : Option LocateResult :=
  (sortCandidates cs).map (fun sorted => locAux start sorted 0)

/-- Modelled from the spec of claim C4 (its ordering words, for
comparison with the code's `sortCandidates`): a total order on sort keys
in which integer keys come first in numeric order and non-numeric names
come last, ordered by name. -/
def specKeyLe (a b : Sum Nat String) : Bool :=
  match a, b with
  | Sum.inl m, Sum.inl n => decide (m ≤ n)
  | Sum.inl _, Sum.inr _ => true
  | Sum.inr _, Sum.inl _ => false
  | Sum.inr s, Sum.inr t => strLe s t

/-- Candidate comparison under the claim's total key order. -/
def leSpec (a b : Candidate) : Bool :=
  specKeyLe (get_sort_key a.name) (get_sort_key b.name)

/-- The locator as claim C4 describes it: always sort all entries by the
claimed total key order, then assign ids. -/
def locateSamplesSpec (start : Nat) (cs : List Candidate) : LocateResult :=
  locAux start (insSortBy leSpec cs) 0

theorem insertBy_mem (le : α → α → Bool) (a x : α) (l : List α) :
    x ∈ insertBy le a l ↔ x = a ∨ x ∈ l := by
  induction l with
  | nil => simp [insertBy]
  | cons b bs ih =>
    simp only [insertBy]
    cases h : le a b
    · simp only [Bool.false_eq_true, if_false, List.mem_cons, ih]
      tauto
    · simp only [if_true, List.mem_cons]

theorem insSortBy_mem (le : α → α → Bool) (x : α) (l : List α) :
    x ∈ insSortBy le l ↔ x ∈ l := by
  induction l with
  | nil => simp [insSortBy]
  | cons a as ih => simp [insSortBy, insertBy_mem, ih]

theorem insertBy_congr (le1 le2 : α → α → Bool) (a : α) (l : List α)
    (h : ∀ y ∈ l, le1 a y = le2 a y) :
    insertBy le1 a l = insertBy le2 a l := by
  induction l with
  | nil => rfl
  | cons b bs ih =>
    simp only [insertBy]
    rw [h b (by simp)]
    by_cases hb : le2 a b = true
    · simp [hb]
    · simp only [hb, if_false]
      rw [ih (fun y hy => h y (by simp [hy]))]

theorem insSortBy_congr (le1 le2 : α → α → Bool) (l : List α)
    (h : ∀ x ∈ l, ∀ y ∈ l, le1 x y = le2 x y) :
    insSortBy le1 l = insSortBy le2 l := by
  induction l with
  | nil => rfl
  | cons a as ih =>
    simp only [insSortBy]
    rw [ih (fun x hx y hy => h x (by simp [hx]) y (by simp [hy]))]
    apply insertBy_congr
    intro y hy
    have hy' : y ∈ as := (insSortBy_mem le2 y as).mp hy
    exact h a (by simp) y (by simp [hy'])

/-- **C4 counterexample** — On the listing `["a", "1"]` (one non-numeric
and one numeric name, both directories holding a `.png` file) the claimed
ordering would accept both, numeric first (`locateSamplesSpec` gives ids
`"0"` to `"1"` and `"1"` to `"a"`); the code instead raises `TypeError`
inside `task_dirs.sort` — `int` and `str` sort keys are incomparable —
and the `except` branch skips the whole domain-task directory, so no id
is assigned at all. -/
theorem C4_locator_order_counterexample :
    locateSamples 0 [⟨"a", true, ["f.png"], none⟩, ⟨"1", true, ["g.png"], none⟩] ≠
      some (locateSamplesSpec 0 [⟨"a", true, ["f.png"], none⟩, ⟨"1", true, ["g.png"], none⟩]) ∧
    locateSamples 0 [⟨"a", true, ["f.png"], none⟩, ⟨"1", true, ["g.png"], none⟩] = none ∧
    locateSamplesSpec 0 [⟨"a", true, ["f.png"], none⟩, ⟨"1", true, ["g.png"], none⟩] =
      ⟨[("1", "0"), ("a", "1")], []⟩ := by
  refine ⟨by decide, by decide, by decide⟩

/-- **C4 (amended)** — When the listing is not mixed — either every entry
name contains a digit or none does — the locator behaves as the claim
says: entries are ordered by the last integer substring of their name
(non-numeric names by name), and accepted directories receive ids
`str(start_index + i)` in that order.  A mixed listing instead raises
`TypeError` in the sort and the whole domain-task directory is skipped
(see `C4_locator_order_counterexample`). -/
theorem C4_locator_order_amended (start : Nat) (cs : List Candidate)
    (hcs : cs.all (fun c => (lastNumber c.name).isSome) = true ∨
           cs.all (fun c => (lastNumber c.name).isNone) = true) :
    locateSamples start cs = some (locateSamplesSpec start cs) := by
  rcases hcs with hnum | hname
  · have hsort : sortCandidates cs = some (insSortBy leNum cs) := by
      simp [sortCandidates, hnum]
    have hcongr : insSortBy leNum cs = insSortBy leSpec cs := by
      apply insSortBy_congr
      intro x hx y hy
      have hxs := List.all_eq_true.mp hnum x hx
      have hys := List.all_eq_true.mp hnum y hy
      obtain ⟨nx, hnx⟩ := Option.isSome_iff_exists.mp hxs
      obtain ⟨ny, hny⟩ := Option.isSome_iff_exists.mp hys
      simp [leNum, leSpec, get_sort_key, hnx, hny, specKeyLe]
    simp only [locateSamples, hsort, Option.map_some', locateSamplesSpec, hcongr]
  · have hnonum : ¬ cs.all (fun c => (lastNumber c.name).isSome) = true ∨ cs = [] := by
      cases cs with
      | nil => exact Or.inr rfl
      | cons c rest =>
        left
        intro hall
        have h1 := List.all_eq_true.mp hall c (by simp)
        have h2 := List.all_eq_true.mp hname c (by simp)
        rw [Option.isNone_iff_eq_none.mp h2] at h1
        simp at h1
    rcases hnonum with hno | hnil
    · have hsort : sortCandidates cs = some (insSortBy leName cs) := by
        rw [sortCandidates]
        rw [if_neg hno, if_pos hname]
      have hcongr : insSortBy leName cs = insSortBy leSpec cs := by
        apply insSortBy_congr
        intro x hx y hy
        have hxs := List.all_eq_true.mp hname x hx
        have hys := List.all_eq_true.mp hname y hy
        rw [Option.isNone_iff_eq_none] at hxs hys
        simp [leName, leSpec, get_sort_key, hxs, hys, specKeyLe]
      simp only [locateSamples, hsort, Option.map_some', locateSamplesSpec, hcongr]
    · rw [hnil]
      rfl

/-- Concrete instantiation of `C4_locator_order_amended`: an all-numeric
listing `["1", "0"]` with `start_index = 10` sorts to `["0", "1"]` and is
assigned ids `["10", "11"]` exactly as the claimed ordering predicts. -/
theorem C4_locator_order_amended_witness :
    locateSamples 10 [⟨"1", true, ["g.png"], none⟩, ⟨"0", true, ["f.png"], none⟩] =
      some (locateSamplesSpec 10 [⟨"1", true, ["g.png"], none⟩, ⟨"0", true, ["f.png"], none⟩]) :=
  C4_locator_order_amended 10
    [⟨"1", true, ["g.png"], none⟩, ⟨"0", true, ["f.png"], none⟩] (Or.inl (by decide))

/-- Processing of one domain-task directory inside the per-task loop:
the sorted listing is walked from `local_index = 0`; when the sort
raises `TypeError` the `except` branch `continue`s and the directory
contributes nothing. -/
def locateResultOf (start : Nat) (cs : List Candidate) : LocateResult :=
  match sortCandidates cs with
  | some sorted => locAux start sorted 0
  | none => ⟨[], []⟩

/-- The outer loop of `process_task` over every `*_task` directory found
under the output root (in walk order, one listing per directory):
`local_index` is reset to `0` for each directory, so each restarts its
ids at `start_index`; assignments and deletions accumulate in order. -/
def processTaskDirs (start : Nat) : List (List Candidate) → LocateResult
  | [] => ⟨[], []⟩
  | cs :: rest =>
    ⟨(locateResultOf start cs).assigned ++ (processTaskDirs start rest).assigned,
      (locateResultOf start cs).deleted ++ (processTaskDirs start rest).deleted⟩

/-- **C5 counterexample** — One task whose generator produced two
domain-task directories: the first holds an accepted directory `"0"`
(with `a.png`) and a rejected directory `"1"` holding only
`metadata.json`; the second holds an accepted directory `"0"`.  With
`start_index = 10` the claim demands the deletion of `"1"` and the
strictly increasing contiguous ids `["10", "11"]` for the two accepted
directories of the task.  The code instead: assigns `["10", "10"]` —
`local_index` restarts at every `*_task` directory, so ids repeat within
the task — and deletes nothing, because `rmdir` fails on the non-empty
rejected directory `"1"` and the failure is swallowed. -/
theorem C5_empty_dir_counterexample :
    (processTaskDirs 10
      [[⟨"0", true, ["a.png"], none⟩, ⟨"1", true, ["metadata.json"], none⟩],
       [⟨"0", true, ["b.png"], none⟩]]).assigned.map Prod.snd = ["10", "10"] ∧
    ["10", "10"] ≠ ["10", "11"] ∧
    acceptCand ⟨"1", true, ["metadata.json"], none⟩ = false ∧
    (⟨"1", true, ["metadata.json"], none⟩ : Candidate).isDir = true ∧
    ¬ "1" ∈ (processTaskDirs 10
      [[⟨"0", true, ["a.png"], none⟩, ⟨"1", true, ["metadata.json"], none⟩],
       [⟨"0", true, ["b.png"], none⟩]]).deleted := by
  refine ⟨by decide, by decide, by decide, by decide, by decide⟩

theorem locAux_assigned_ids (start : Nat) (cs : List Candidate) : ∀ i,
    (locAux start cs i).assigned.map Prod.snd =
      (List.range ((cs.filter acceptCand).length)).map (fun j => toString (start + i + j)) := by
  induction cs with
  | nil => intro i; rfl
  | cons c cs ih =>
    intro i
    by_cases hd : c.isDir = true
    · by_cases hf : hasTaskFiles c = true
      · have hacc : acceptCand c = true := by simp [acceptCand, hd, hf]
        simp only [locAux, hd, if_true, hf, List.map_cons,
          List.filter_cons, hacc, List.length_cons]
        rw [ih (i + 1), List.range_succ_eq_map, List.map_cons, List.map_map]
        refine List.cons_eq_cons.mpr ⟨?_, ?_⟩
        · rfl
        · apply List.map_congr_left
          intro j hj
          simp only [Function.comp_apply]
          congr 1
          omega
      · have hacc : acceptCand c = false := by simp [acceptCand, hf]
        have hstep : locAux start (c :: cs) i =
            (if c.files.isEmpty then
              ⟨(locAux start cs i).assigned, c.name :: (locAux start cs i).deleted⟩
             else locAux start cs i) := by
          simp [locAux, hd, hf]
        rw [hstep]
        by_cases he : c.files.isEmpty = true
        · simp only [he, if_true]
          rw [List.filter_cons_of_neg (by simp [hacc])]
          exact ih i
        · simp only [he, if_false]
          rw [List.filter_cons_of_neg (by simp [hacc])]
          exact ih i
    · have hacc : acceptCand c = false := by simp [acceptCand, hd]
      have hd' : c.isDir = false := by simpa using hd
      simp only [locAux, hd', Bool.false_eq_true, if_false]
      rw [List.filter_cons_of_neg (by simp [hacc])]
      exact ih i

theorem locAux_deleted (start : Nat) (cs : List Candidate) : ∀ i,
    (locAux start cs i).deleted =
      (cs.filter (fun c => c.isDir && !hasTaskFiles c && c.files.isEmpty)).map
        Candidate.name := by
  induction cs with
  | nil => intro i; rfl
  | cons c cs ih =>
    intro i
    by_cases hd : c.isDir = true
    · by_cases hf : hasTaskFiles c = true
      · simp only [locAux, hd, if_true, hf]
        rw [List.filter_cons_of_neg (by simp [hd, hf])]
        exact ih (i + 1)
      · have hstep : locAux start (c :: cs) i =
            (if c.files.isEmpty then
              ⟨(locAux start cs i).assigned, c.name :: (locAux start cs i).deleted⟩
             else locAux start cs i) := by
          simp [locAux, hd, hf]
        rw [hstep]
        by_cases he : c.files.isEmpty = true
        · simp only [he, if_true]
          rw [List.filter_cons_of_pos (by simp [hd, hf, he])]
          rw [List.map_cons]
          exact congrArg (c.name :: ·) (ih i)
        · simp only [he, if_false]
          rw [List.filter_cons_of_neg (by simp [hd, hf, he])]
          exact ih i
    · have hd' : c.isDir = false := by simpa using hd
      simp only [locAux, hd', Bool.false_eq_true, if_false]
      rw [List.filter_cons_of_neg (by simp [hd'])]
      exact ih i

/-- **C5 (amended)** — Over the whole task: the ids assigned are, for
each domain-task directory in turn, exactly `str(start_index + i)` for
`i = 0, ..., N-1` where `N` is that directory's number of accepted
candidates (directory with at least one recognized artifact file) —
strictly increasing and contiguous *per domain-task directory*, with
`local_index` restarting at `start_index` for every such directory, so
ids repeat across directories within one task; rejected candidates
consume no id, and the names deleted in place are exactly those of the
rejected directories that are *truly empty* (`rmdir` silently fails on
a rejected directory that still holds unrecognized files, which
therefore survives); a directory whose listing mixes numeric and
non-numeric names is skipped whole and contributes nothing. -/
theorem C5_id_contiguity_amended (start : Nat) (dirs : List (List Candidate)) :
    (processTaskDirs start dirs).assigned.map Prod.snd =
      dirs.flatMap (fun cs =>
        match sortCandidates cs with
        | none => []
        | some sorted =>
          (List.range ((sorted.filter acceptCand).length)).map
            (fun i => toString (start + i))) ∧
    (processTaskDirs start dirs).deleted =
      dirs.flatMap (fun cs =>
        match sortCandidates cs with
        | none => []
        | some sorted =>
          (sorted.filter (fun c => c.isDir && !hasTaskFiles c && c.files.isEmpty)).map
            Candidate.name) := by
  induction dirs with
  | nil => exact ⟨rfl, rfl⟩
  | cons cs rest ih =>
    simp only [processTaskDirs, List.flatMap_cons, List.map_append]
    constructor
    · rw [ih.1]
      congr 1
      cases hs : sortCandidates cs with
      | none => simp [locateResultOf, hs]
      | some sorted =>
        simp only [locateResultOf, hs]
        rw [locAux_assigned_ids start sorted 0]
        apply List.map_congr_left
        intro j hj
        rfl
    · rw [ih.2]
      congr 1
      cases hs : sortCandidates cs with
      | none => simp [locateResultOf, hs]
      | some sorted =>
        simp only [locateResultOf, hs]
        exact locAux_deleted start sorted 0

/-! ## Upload pipeline (`src/lambda_handler.py`, `upload_directory_to_s3`)

`upload_directory_to_s3` walks all files under a sample directory in two
passes: the first pass uploads each file in order, appending it to
`files_to_delete` after the transfer is acknowledged, and raises on the
first failed transfer; the second pass — reached only if every transfer
succeeded — attempts to `unlink` every collected file, and an `unlink`
failure is only logged as a warning, leaving that file on disk.  The S3
transfer and the local `unlink` are modelled by oracles saying whether
they succeed for a given file; the observable behaviour is the ordered
trace of upload/delete events. -/

/-- One observable side effect of the upload call: a file acknowledged by
S3, or a file unlinked locally. -/
inductive UpEvent where
  | up (f : String) : UpEvent
  | del (f : String) : UpEvent
deriving DecidableEq

/-- Result of `upload_directory_to_s3`: normal return with the event
trace and the `upload_count`, or an exception propagated from a failed
transfer with the events performed before it. -/
inductive UpOutcome where
  | done (events : List UpEvent) (count : Nat) : UpOutcome
  | raised (events : List UpEvent) : UpOutcome
deriving DecidableEq

/-- The first (upload) pass over the remaining files, carrying the
`files_to_delete` accumulator of already-uploaded files; on completion
the second pass attempts to delete every accumulated file in order — a
file whose `unlink` fails (`delOk` false) is only warned about and
remains on disk — so the trace is all uploads followed by the deletes
that succeeded. -/
def uploadFirstPass (ok delOk : String → Bool) : List String → List String → UpOutcome
  | [], uploaded =>
    UpOutcome.done (uploaded.map UpEvent.up ++ (uploaded.filter delOk).map UpEvent.del)
      uploaded.length
  | f :: fs, uploaded =>
    if ok f then uploadFirstPass ok delOk fs (uploaded ++ [f])
    else UpOutcome.raised (uploaded.map UpEvent.up)

/-- `upload_directory_to_s3` on the (ordered) list of files found under
the sample directory, with transfer oracle `ok` and unlink oracle
`delOk`. -/
def upload_directory_to_s3 (ok delOk : String → Bool) (files : List String) : UpOutcome :=
  uploadFirstPass ok delOk files []

/-- Modelled from the words of claim C6 (for comparison with the code's
trace): each file "deleted locally immediately after its individual
transfer is acknowledged (not deferred to a later pass)", i.e. an
interleaved upload/delete trace. -/
def uploadImmediateSpec (files : List String) : List UpEvent :=
  files.flatMap (fun f => [UpEvent.up f, UpEvent.del f])

/-- Files of the directory still on local disk after the event trace:
those never deleted. -/
def remainingFiles (files : List String) (evs : List UpEvent) : List String :=
  files.filter (fun f => decide (¬ UpEvent.del f ∈ evs))

/-- Files reported as uploaded in the event trace. -/
def uploadedFiles (evs : List UpEvent) : List String :=
  evs.filterMap (fun e =>
    match e with
    | UpEvent.up f => some f
    | UpEvent.del _ => none)

theorem uploadFirstPass_all_ok (ok delOk : String → Bool) (files : List String) :
    ∀ acc, (∀ f ∈ files, ok f = true) →
      uploadFirstPass ok delOk files acc =
        UpOutcome.done ((acc ++ files).map UpEvent.up ++
          ((acc ++ files).filter delOk).map UpEvent.del) (acc ++ files).length := by
  induction files with
  | nil => intro acc _; simp [uploadFirstPass]
  | cons f fs ih =>
    intro acc hall
    have hf : ok f = true := hall f (by simp)
    simp only [uploadFirstPass, hf, if_true]
    rw [ih (acc ++ [f]) (fun g hg => hall g (by simp [hg]))]
    simp

/-- **C6 counterexample** — With two files `["a", "b"]`, every transfer
and every unlink succeeding, the code's trace is upload `a`, upload `b`,
delete `a`, delete `b`: both deletions happen in a second pass after all
transfers, not "immediately after its individual transfer is
acknowledged" as the claim states, which would give the interleaved
trace upload `a`, delete `a`, upload `b`, delete `b`. -/
theorem C6_immediate_delete_counterexample :
    upload_directory_to_s3 (fun _ => true) (fun _ => true) ["a", "b"] =
      UpOutcome.done [UpEvent.up "a", UpEvent.up "b", UpEvent.del "a", UpEvent.del "b"] 2 ∧
    uploadImmediateSpec ["a", "b"] =
      [UpEvent.up "a", UpEvent.del "a", UpEvent.up "b", UpEvent.del "b"] ∧
    upload_directory_to_s3 (fun _ => true) (fun _ => true) ["a", "b"] ≠
      UpOutcome.done (uploadImmediateSpec ["a", "b"]) 2 := by
  refine ⟨by decide, by decide, by decide⟩

/-- **C6 (amended)** — When every transfer succeeds, the call uploads all
files in order and then attempts their deletion in a second pass (trace
= all uploads followed by the successful deletes, count = number of
files); the files that remain on local disk after the call returns are
exactly those whose `unlink` failed — the failure is only logged, so an
uploaded file can survive a normal return — and in particular when every
`unlink` succeeds, no file reported as uploaded remains. -/
theorem C6_upload_then_delete_amended (ok delOk : String → Bool) (files : List String)
    (hok : ∀ f ∈ files, ok f = true) :
    upload_directory_to_s3 ok delOk files =
      UpOutcome.done (files.map UpEvent.up ++ (files.filter delOk).map UpEvent.del)
        files.length ∧
    remainingFiles files
        (files.map UpEvent.up ++ (files.filter delOk).map UpEvent.del) =
      files.filter (fun f => !(delOk f)) ∧
    ((∀ f ∈ files, delOk f = true) →
      remainingFiles files
          (files.map UpEvent.up ++ (files.filter delOk).map UpEvent.del) = []) := by
  have h2 : remainingFiles files
      (files.map UpEvent.up ++ (files.filter delOk).map UpEvent.del) =
      files.filter (fun f => !(delOk f)) := by
    rw [remainingFiles]
    apply List.filter_congr
    intro f hf
    cases hdel : delOk f with
    | false =>
      have hnmem : UpEvent.del f ∉
          files.map UpEvent.up ++ (files.filter delOk).map UpEvent.del := by
        intro hmem
        rcases List.mem_append.mp hmem with h1 | h1
        · rcases List.mem_map.mp h1 with ⟨g, _, hgeq⟩
          exact UpEvent.noConfusion hgeq
        · rcases List.mem_map.mp h1 with ⟨g, hg, hgeq⟩
          have hgf : g = f := by
            cases hgeq
            rfl
          subst hgf
          rw [List.mem_filter] at hg
          rw [hg.2] at hdel
          cases hdel
      simp [hnmem]
    | true =>
      have hmem : UpEvent.del f ∈
          files.map UpEvent.up ++ (files.filter delOk).map UpEvent.del :=
        List.mem_append_right _
          (List.mem_map_of_mem UpEvent.del (List.mem_filter.mpr ⟨hf, hdel⟩))
      simp [hmem]
  refine ⟨?_, h2, ?_⟩
  · have h := uploadFirstPass_all_ok ok delOk files [] hok
    simpa [upload_directory_to_s3] using h
  · intro hall
    rw [h2, List.filter_eq_nil_iff]
    intro f hf
    simp [hall f hf]

/-- Concrete instantiation of `C6_upload_then_delete_amended` on files
`["a", "b"]` with both transfers succeeding but the unlink of `"b"`
failing: the trace holds no delete for `"b"` and `"b"` remains on
disk. -/
theorem C6_upload_then_delete_amended_witness :
    upload_directory_to_s3 (fun _ => true) (fun g => g == "a") ["a", "b"] =
      UpOutcome.done ((["a", "b"].map UpEvent.up ++
        (["a", "b"].filter (fun g => g == "a")).map UpEvent.del))
        (["a", "b"] : List String).length ∧
    remainingFiles ["a", "b"]
        (["a", "b"].map UpEvent.up ++
          (["a", "b"].filter (fun g => g == "a")).map UpEvent.del) =
      ["a", "b"].filter (fun f => !((fun g => g == "a") f)) ∧
    ((∀ f ∈ (["a", "b"] : List String), (fun g => g == "a") f = true) →
      remainingFiles ["a", "b"]
          (["a", "b"].map UpEvent.up ++
            (["a", "b"].filter (fun g => g == "a")).map UpEvent.del) = []) :=
  C6_upload_then_delete_amended (fun _ => true) (fun g => g == "a") ["a", "b"]
    (fun _ _ => rfl)

theorem uploadFirstPass_fail (ok delOk : String → Bool) (pre : List String) (f : String)
    (post : List String) :
    ∀ acc, (∀ g ∈ pre, ok g = true) → ok f = false →
      uploadFirstPass ok delOk (pre ++ f :: post) acc =
        UpOutcome.raised ((acc ++ pre).map UpEvent.up) := by
  induction pre with
  | nil =>
    intro acc _ hf
    simp [uploadFirstPass, hf]
  | cons g gs ih =>
    intro acc hpre hf
    have hg : ok g = true := hpre g (by simp)
    simp only [List.cons_append, uploadFirstPass, hg, if_true]
    have h2 := ih (acc ++ [g]) (fun x hx => hpre x (by simp [hx])) hf
    simpa [List.append_assoc] using h2

/-- **C9** — A failed transfer aborts the whole call, whatever the
unlink behaviour.  If the files of the directory are `pre ++ [f] ++
post` with every transfer in `pre` succeeding and the transfer of `f`
failing, the call raises immediately: the trace holds exactly the
uploads of `pre` — no file of `post` is attempted (no continuation), no
retry of `f` happens at this layer, and no deletion is performed (the
second pass is never reached). -/
theorem C9_transfer_failure_aborts (ok delOk : String → Bool) (pre post : List String)
    (f : String) (hpre : ∀ g ∈ pre, ok g = true) (hf : ok f = false) :
    upload_directory_to_s3 ok delOk (pre ++ f :: post) =
      UpOutcome.raised (pre.map UpEvent.up) := by
  have h := uploadFirstPass_fail ok delOk pre f post [] hpre hf
  simpa [upload_directory_to_s3] using h

/-- Concrete instantiation of `C9_transfer_failure_aborts`: files
`["a", "b", "c"]` where only the transfer of `"a"` succeeds — the call
raises after uploading `"a"`, never touching `"c"` and deleting
nothing. -/
theorem C9_transfer_failure_aborts_witness :
    upload_directory_to_s3 (fun g => g == "a") (fun _ => true) (["a"] ++ "b" :: ["c"]) =
      UpOutcome.raised (["a"].map UpEvent.up) :=
  C9_transfer_failure_aborts (fun g => g == "a") (fun _ => true) ["a"] ["c"] "b"
    (by intro g hg; simp at hg; simp [hg]) (by decide)
/-! ## Dedup rounds and batch regeneration
(`src/vbvrdatafactory/lambda_handler/handler.py`)

`_dedup_samples` iterates up to `MAX_DEDUP_RETRIES + 1` check rounds over
the pending sample ids: each id whose directory is missing is skipped,
each id without a `param_hash` is accepted without a registry check, and
the rest go through `check_and_register`; duplicates of a round are
batch-regenerated (`_batch_regenerate`) and re-checked in the next round,
except in the final round where their directories are removed and the
ids dropped.  `_batch_regenerate` makes up to `MAX_DEDUP_RETRIES`
generator invocations, each requesting `len(duplicate_ids)` samples with
a fresh seed into a scratch directory; on the first usable output it
collects every immediate subdirectory of each `*_task` directory
(`sorted(item.iterdir())`, i.e. lexical by name, no artifact filter) and
replaces the i-th duplicate's directory with the i-th collected
directory, removing without replacement when the output falls short; if
every invocation fails it removes all the duplicates' directories.

The per-sample filesystem state is an association list from sample id to
the `param_hash` of the directory's `metadata.json` (`none` when the
file or field is missing); a key absent from the list is a missing
directory.  The generator is an oracle from the invocation counter to an
optional scratch-output listing (one entry per `*_task` directory found,
holding its children); `none` covers both a subprocess crash and
`find_task_directories` finding nothing. -/

/-- Sample directories under one domain-task directory: id, and the
`param_hash` of the sample's `metadata.json` if available. -/
abbrev SampleFS := List (String × Option String)

/-- Whether the directory of a sample id exists, and if so which
`param_hash` `_read_param_hash` returns for it. -/
def lookupFS (fs : SampleFS) (id : String) : Option (Option String) :=
  match fs.find? (fun p => p.1 == id) with
  | some p => some p.2
  | none => none

/-- `shutil.rmtree` of a sample directory (no-op when absent). -/
def removeId (fs : SampleFS) (id : String) : SampleFS :=
  fs.filter (fun p => !(p.1 == id))

/-- `new_sample_dirs[i].rename(target_dir)` after `rmtree(target_dir)`:
the id now holds the regenerated directory's hash. -/
def setId (fs : SampleFS) (id : String) (h : Option String) : SampleFS :=
  (id, h) :: removeId fs id

/-- `MAX_DEDUP_RETRIES` of
`src/vbvrdatafactory/lambda_handler/handler.py`. -/
def MAX_DEDUP_RETRIES : Nat := 3

/-- The collection loop of `_batch_regenerate`: for each `*_task`
directory of the scratch output (in walk order), its immediate
subdirectories sorted lexically by name — `sorted(item.iterdir())`
followed by an `is_dir` filter, with no artifact-extension check. -/
def collectNewDirs (tds : List (List Candidate)) : List Candidate :=
  tds.flatMap (fun l => insSortBy leName (l.filter Candidate.isDir))

/-- The replacement loop of `_batch_regenerate`: the i-th duplicate's
directory is removed and, when an i-th regenerated directory exists, the
regenerated directory is moved to its path. -/
def pairReplace (fs : SampleFS) : List String → List (Option String) → SampleFS
  | [], _ => fs
  | d :: ds, [] => pairReplace (removeId fs d) ds []
  | d :: ds, n :: ns => pairReplace (setId fs d n) ds ns

/-- Result of `_batch_regenerate`: the filesystem after replacement,
the generator-invocation counter after the call, and the `num_samples`
requested by each invocation made (in order). -/
structure RegenResult where
  fs : SampleFS
  next : Nat
  reqs : List Nat
deriving DecidableEq

/-- The attempt loop of `_batch_regenerate` with `fuel` attempts left:
each attempt invokes the generator for `len(duplicate_ids)` samples; a
crash or empty output moves to the next attempt; usable output is
collected and positionally paired; exhaustion removes every duplicate's
directory so the caller skips them. -/
def batchRegen (gen : Nat → Option (List (List Candidate))) (dups : List String) :
    SampleFS → Nat → Nat → RegenResult
  | fs, t, 0 => ⟨dups.foldl removeId fs, t, []⟩
  | fs, t, fuel + 1 =>
    match gen t with
    | none =>
      let r := batchRegen gen dups fs (t + 1) fuel
      ⟨r.fs, r.next, dups.length :: r.reqs⟩
    | some tds =>
      ⟨pairReplace fs dups ((collectNewDirs tds).map Candidate.param_hash),
        t + 1, [dups.length]⟩

/-- `_batch_regenerate` proper: up to `MAX_DEDUP_RETRIES` attempts. -/
def batch_regenerate (gen : Nat → Option (List (List Candidate)))
    (dups : List String) (fs : SampleFS) (t : Nat) : RegenResult :=
  batchRegen gen dups fs t MAX_DEDUP_RETRIES

/-- Result of the per-round check loop of `_dedup_samples`: ids appended
to `unique_samples` this round (in order), ids appended to `duplicates`
(in order), and the registry after the round's
`check_and_register` calls. -/
structure CheckResult where
  added : List String
  dups : List String
  reg : Registry
deriving DecidableEq

/-- One round's `for sample_id in pending` loop: a missing directory is
skipped; a missing or empty `param_hash` accepts the sample without a
registry check; otherwise `check_and_register` decides and updates the
registry. -/
def checkPending (g : String) (fs : SampleFS) : List String → Registry → CheckResult
  | [], reg => ⟨[], [], reg⟩
  | id :: rest, reg =>
    match lookupFS fs id with
    | none => checkPending g fs rest reg
    | some none =>
      let r := checkPending g fs rest reg
      ⟨id :: r.added, r.dups, r.reg⟩
    | some (some ph) =>
      if ph.isEmpty then
        let r := checkPending g fs rest reg
        ⟨id :: r.added, r.dups, r.reg⟩
      else
        let c := check_and_register reg g ph id
        let r := checkPending g fs rest c.2
        if c.1 then ⟨id :: r.added, r.dups, r.reg⟩
        else ⟨r.added, id :: r.dups, r.reg⟩

/-- Observable outcome of `_dedup_samples`: the accepted ids in order,
the final filesystem and registry, the generator-invocation counter, the
`num_samples` of every regeneration invocation, and the number of
regeneration rounds performed. -/
structure DedupOutcome where
  uniq : List String
  fs : SampleFS
  reg : Registry
  next : Nat
  reqs : List Nat
  rounds : Nat
deriving DecidableEq

/-- The `for round_num in range(MAX_DEDUP_RETRIES + 1)` loop of
`_dedup_samples` with `fuel` iterations left: check the pending ids; if
no duplicates remain, return; if this was the final round, remove every
remaining duplicate's directory and drop the ids; otherwise
batch-regenerate the duplicates and re-check only them. -/
def dedupLoop (g : String) (gen : Nat → Option (List (List Candidate))) :
    List String → SampleFS → Registry → Nat → List String → List Nat → Nat → Nat →
      DedupOutcome
  | _, fs, reg, t, uniq, reqs, rounds, 0 => ⟨uniq, fs, reg, t, reqs, rounds⟩
  | pending, fs, reg, t, uniq, reqs, rounds, left + 1 =>
    let c := checkPending g fs pending reg
    if c.dups.isEmpty then ⟨uniq ++ c.added, fs, c.reg, t, reqs, rounds⟩
    else if left = 0 then
      ⟨uniq ++ c.added, c.dups.foldl removeId fs, c.reg, t, reqs, rounds⟩
    else
      let r := batch_regenerate gen c.dups fs t
      dedupLoop g gen c.dups r.fs c.reg r.next (uniq ++ c.added) (reqs ++ r.reqs)
        (rounds + 1) left

/-- `_dedup_samples`: with no dedup table configured (unset or empty
`DEDUP_TABLE_NAME`) the input ids are returned unchanged and nothing
else happens; otherwise the round loop runs with `MAX_DEDUP_RETRIES + 1`
iterations. -/
def dedup_samples (tableName : Option String) (g : String)
    (gen : Nat → Option (List (List Candidate))) (renamed : List String)
    (fs : SampleFS) (reg : Registry) : DedupOutcome :=
  if (tableName.getD "").isEmpty then ⟨renamed, fs, reg, 0, [], 0⟩
  else dedupLoop g gen renamed fs reg 0 [] [] 0 (MAX_DEDUP_RETRIES + 1)

theorem lookupFS_cons (p : String × Option String) (ps : SampleFS) (id : String) :
    lookupFS (p :: ps) id = if p.1 == id then some p.2 else lookupFS ps id := by
  simp only [lookupFS, List.find?]
  cases hp : (p.1 == id) <;> simp [hp]

theorem removeId_cons (p : String × Option String) (ps : SampleFS) (id : String) :
    removeId (p :: ps) id = if p.1 == id then removeId ps id else p :: removeId ps id := by
  simp only [removeId, List.filter]
  cases hp : (p.1 == id) <;> simp [hp]

theorem lookupFS_removeId (fs : SampleFS) (x id : String) :
    lookupFS (removeId fs x) id = if id = x then none else lookupFS fs id := by
  induction fs with
  | nil =>
    by_cases hix : id = x <;> simp [removeId, lookupFS, hix]
  | cons p ps ih =>
    rw [removeId_cons]
    by_cases hp : (p.1 == x) = true
    · rw [if_pos hp, ih, lookupFS_cons]
      by_cases hix : id = x
      · simp [hix]
      · have hpid : (p.1 == id) = false := by
          have : p.1 = x := by simpa using hp
          simp [this]
          exact fun e => hix e.symm
        simp [hix, hpid]
    · rw [if_neg hp]
      by_cases hix : id = x
      · subst hix
        have hpid : (p.1 == id) = false := by
          cases hb : (p.1 == id)
          · rfl
          · exact absurd hb hp
        rw [if_pos rfl, lookupFS_cons, hpid]
        simp only [Bool.false_eq_true, if_false]
        rw [ih, if_pos rfl]
      · rw [if_neg hix, lookupFS_cons, lookupFS_cons]
        by_cases hpid : (p.1 == id) = true
        · rw [if_pos hpid, if_pos hpid]
        · rw [if_neg hpid, if_neg hpid, ih, if_neg hix]
  
theorem lookupFS_setId (fs : SampleFS) (x id : String) (h : Option String) :
    lookupFS (setId fs x h) id = if id = x then some h else lookupFS fs id := by
  rw [setId, lookupFS_cons]
  by_cases hix : id = x
  · simp [hix]
  · have hx : (x == id) = false := by
      simp only [beq_eq_false_iff_ne, ne_eq]
      exact fun e => hix e.symm
    simp only [hx, Bool.false_eq_true, if_false, if_neg hix]
    rw [lookupFS_removeId, if_neg hix]

theorem lookupFS_foldl_removeId (l : List String) :
    ∀ (fs : SampleFS) (id : String),
      lookupFS (l.foldl removeId fs) id =
        if id ∈ l then none else lookupFS fs id := by
  induction l with
  | nil => intro fs id; simp
  | cons d ds ih =>
    intro fs id
    simp only [List.foldl_cons]
    rw [ih]
    by_cases hmem : id ∈ ds
    · simp [hmem]
    · simp only [hmem, if_false]
      rw [lookupFS_removeId]
      by_cases hid : id = d
      · simp [hid]
      · simp [hid, hmem]

theorem pairReplace_untouched (dups : List String) :
    ∀ (hs : List (Option String)) (fs : SampleFS) (id : String), id ∉ dups →
      lookupFS (pairReplace fs dups hs) id = lookupFS fs id := by
  induction dups with
  | nil => intro hs fs id _; cases hs <;> rfl
  | cons d ds ih =>
    intro hs fs id hid
    have hd : id ≠ d := fun e => hid (by simp [e])
    have hds : id ∉ ds := fun m => hid (by simp [m])
    cases hs with
    | nil =>
      simp only [pairReplace]
      rw [ih [] (removeId fs d) id hds, lookupFS_removeId, if_neg hd]
    | cons n ns =>
      simp only [pairReplace]
      rw [ih ns (setId fs d n) id hds, lookupFS_setId, if_neg hd]

theorem pairReplace_lookup (dups : List String) :
    ∀ (hs : List (Option String)) (fs : SampleFS), dups.Nodup →
      ∀ (i : Nat) (hi : i < dups.length),
      lookupFS (pairReplace fs dups hs) (dups.get ⟨i, hi⟩) =
        if hn : i < hs.length then some (hs.get ⟨i, hn⟩) else none := by
  induction dups with
  | nil => intro hs fs _ i hi; exact absurd hi (by simp)
  | cons d ds ih =>
    intro hs fs hnd i hi
    have hdnotin : d ∉ ds := (List.nodup_cons.mp hnd).1
    have hndtail : ds.Nodup := (List.nodup_cons.mp hnd).2
    cases i with
    | zero =>
      cases hs with
      | nil =>
        simp only [pairReplace, List.get]
        rw [pairReplace_untouched ds [] (removeId fs d) d hdnotin,
          lookupFS_removeId, if_pos rfl]
        simp
      | cons n ns =>
        simp only [pairReplace, List.get]
        rw [pairReplace_untouched ds ns (setId fs d n) d hdnotin,
          lookupFS_setId, if_pos rfl]
        simp
    | succ j =>
      have hj : j < ds.length := by simpa using hi
      cases hs with
      | nil =>
        simp only [pairReplace, List.get]
        rw [ih [] (removeId fs d) hndtail j hj]
        simp
      | cons n ns =>
        simp only [pairReplace, List.get]
        rw [ih ns (setId fs d n) hndtail j hj]
        by_cases hjn : j < ns.length
        · rw [dif_pos hjn, dif_pos (by simpa using Nat.succ_lt_succ hjn)]
        · rw [dif_neg hjn, dif_neg (by simpa using fun hh => hjn (Nat.lt_of_succ_lt_succ hh))]

/-- **C8 counterexample** — The regeneration collection does not use the
locator's discovery logic.  The scratch output holds one `*_task`
directory with two sample directories named `"2"` (hash `h2`) and `"10"`
(hash `h10`), each holding a `.png`.  The locator's discovery
(`get_sort_key`) orders them numerically `["2", "10"]`, so the claim
pairs the first duplicate with `"2"` (hash `h2`); `_batch_regenerate`
instead iterates `sorted(item.iterdir())` — lexical, `"10" < "2"` — so
the first duplicate `"5"` actually receives hash `h10`. -/
theorem C8_regen_pairing_counterexample :
    (collectNewDirs [[⟨"2", true, ["a.png"], some "h2"⟩,
        ⟨"10", true, ["b.png"], some "h10"⟩]]).map Candidate.name = ["10", "2"] ∧
    (sortCandidates [⟨"2", true, ["a.png"], some "h2"⟩,
        ⟨"10", true, ["b.png"], some "h10"⟩]).map
      (fun l => (l.filter acceptCand).map Candidate.name) = some ["2", "10"] ∧
    lookupFS (batch_regenerate
        (fun _ => some [[⟨"2", true, ["a.png"], some "h2"⟩,
          ⟨"10", true, ["b.png"], some "h10"⟩]])
        ["5", "6"] [("5", some "d5"), ("6", some "d6")] 0).fs "5" =
      some (some "h10") ∧
    some (some "h10") ≠ some (some "h2") := by
  refine ⟨by decide, by decide, by decide, by decide⟩

/-- **C8 (amended)** — In a regeneration round with duplicate ids free of
repetition and a generator invocation that yields usable output, the
coordinator makes exactly one invocation requesting `|duplicates|`
samples (with a fresh seed into a scratch directory); it collects every
immediate subdirectory of each `*_task` directory of the scratch output
sorted lexically by name — not the locator's last-integer ordering, and
with no artifact-file filter — and pairs the i-th collected directory
positionally with the i-th duplicate id, discarding the old content at
that path; a duplicate id with no corresponding collected directory has
its directory removed, to be dropped from the output at the next
check round. -/
theorem C8_batch_regen_amended (gen : Nat → Option (List (List Candidate)))
    (dups : List String) (fs : SampleFS) (t : Nat) (tds : List (List Candidate))
    (hnd : dups.Nodup) (hg : gen t = some tds) :
    batch_regenerate gen dups fs t =
      ⟨pairReplace fs dups ((collectNewDirs tds).map Candidate.param_hash),
        t + 1, [dups.length]⟩ ∧
    (∀ (i : Nat) (hi : i < dups.length) (hn : i < (collectNewDirs tds).length),
      lookupFS (batch_regenerate gen dups fs t).fs (dups.get ⟨i, hi⟩) =
        some (((collectNewDirs tds).get ⟨i, hn⟩).param_hash)) ∧
    (∀ (i : Nat) (hi : i < dups.length), (collectNewDirs tds).length ≤ i →
      lookupFS (batch_regenerate gen dups fs t).fs (dups.get ⟨i, hi⟩) = none) := by
  have hstep : batch_regenerate gen dups fs t =
      ⟨pairReplace fs dups ((collectNewDirs tds).map Candidate.param_hash),
        t + 1, [dups.length]⟩ := by
    simp [batch_regenerate, MAX_DEDUP_RETRIES, batchRegen, hg]
  refine ⟨hstep, ?_, ?_⟩
  · intro i hi hn
    rw [hstep]
    rw [pairReplace_lookup dups ((collectNewDirs tds).map Candidate.param_hash) fs hnd i hi]
    rw [dif_pos (by simpa using hn)]
    congr 1
    exact List.getElem_map Candidate.param_hash
  · intro i hi hge
    rw [hstep]
    rw [pairReplace_lookup dups ((collectNewDirs tds).map Candidate.param_hash) fs hnd i hi]
    rw [dif_neg (by simpa using Nat.not_lt.mpr hge)]

/-- Concrete instantiation of `C8_batch_regen_amended`: two duplicates
`["5", "6"]`, one collected regenerated directory — the first duplicate
gets the regenerated hash, the second is removed without replacement. -/
theorem C8_batch_regen_amended_witness :
    lookupFS (batch_regenerate (fun _ => some [[⟨"0", true, ["a.png"], some "hA"⟩]])
        ["5", "6"] [("5", some "d5"), ("6", some "d6")] 0).fs
      (["5", "6"].get ⟨0, by decide⟩) =
      some (((collectNewDirs [[⟨"0", true, ["a.png"], some "hA"⟩]]).get
        ⟨0, by decide⟩).param_hash) ∧
    lookupFS (batch_regenerate (fun _ => some [[⟨"0", true, ["a.png"], some "hA"⟩]])
        ["5", "6"] [("5", some "d5"), ("6", some "d6")] 0).fs
      (["5", "6"].get ⟨1, by decide⟩) = none :=
  ⟨(C8_batch_regen_amended (fun _ => some [[⟨"0", true, ["a.png"], some "hA"⟩]])
      ["5", "6"] [("5", some "d5"), ("6", some "d6")] 0
      [[⟨"0", true, ["a.png"], some "hA"⟩]] (by decide) rfl).2.1 0 (by decide) (by decide),
   (C8_batch_regen_amended (fun _ => some [[⟨"0", true, ["a.png"], some "hA"⟩]])
      ["5", "6"] [("5", some "d5"), ("6", some "d6")] 0
      [[⟨"0", true, ["a.png"], some "hA"⟩]] (by decide) rfl).2.2 1 (by decide) (by decide)⟩

/-- **C10** — With no dedup table configured (`DEDUP_TABLE_NAME` unset or
empty) `_dedup_samples` returns the input sample-id list unchanged:
the filesystem and the registry are untouched, no generator invocation
and no regeneration round happens, so every located sample proceeds to
upload even when the task requested dedup. -/
theorem C10_dedup_skipped_without_table (tableName : Option String) (g : String)
    (gen : Nat → Option (List (List Candidate))) (renamed : List String)
    (fs : SampleFS) (reg : Registry)
    (hcfg : tableName = none ∨ tableName = some "") :
    dedup_samples tableName g gen renamed fs reg = ⟨renamed, fs, reg, 0, [], 0⟩ := by
  rcases hcfg with hc | hc <;> subst hc <;> rfl

/-- Concrete instantiation of `C10_dedup_skipped_without_table` with an
unset table name. -/
theorem C10_dedup_skipped_without_table_witness :
    dedup_samples none "gen" (fun _ => none) ["0", "1"] [("0", some "hA")] [] =
      ⟨["0", "1"], [("0", some "hA")], [], 0, [], 0⟩ :=
  C10_dedup_skipped_without_table none "gen" (fun _ => none) ["0", "1"]
    [("0", some "hA")] [] (Or.inl rfl)


theorem checkPending_nil (g : String) (fs : SampleFS) (reg : Registry) :
    checkPending g fs [] reg = ⟨[], [], reg⟩ := rfl

theorem checkPending_cons_missing (g : String) (fs : SampleFS) (x : String)
    (rest : List String) (reg : Registry) (hx : lookupFS fs x = none) :
    checkPending g fs (x :: rest) reg = checkPending g fs rest reg := by
  simp [checkPending, hx]

theorem checkPending_cons_nohash (g : String) (fs : SampleFS) (x : String)
    (rest : List String) (reg : Registry) (hx : lookupFS fs x = some none) :
    checkPending g fs (x :: rest) reg =
      ⟨x :: (checkPending g fs rest reg).added, (checkPending g fs rest reg).dups,
        (checkPending g fs rest reg).reg⟩ := by
  simp [checkPending, hx]

theorem checkPending_cons_emptyhash (g : String) (fs : SampleFS) (x : String)
    (rest : List String) (reg : Registry) (s : String)
    (hx : lookupFS fs x = some (some s)) (hs : s.isEmpty = true) :
    checkPending g fs (x :: rest) reg =
      ⟨x :: (checkPending g fs rest reg).added, (checkPending g fs rest reg).dups,
        (checkPending g fs rest reg).reg⟩ := by
  simp [checkPending, hx, hs]

theorem checkPending_cons_ok (g : String) (fs : SampleFS) (x : String)
    (rest : List String) (reg : Registry) (s : String)
    (hx : lookupFS fs x = some (some s)) (hs : s.isEmpty = false)
    (hc : (check_and_register reg g s x).1 = true) :
    checkPending g fs (x :: rest) reg =
      ⟨x :: (checkPending g fs rest (check_and_register reg g s x).2).added,
        (checkPending g fs rest (check_and_register reg g s x).2).dups,
        (checkPending g fs rest (check_and_register reg g s x).2).reg⟩ := by
  simp [checkPending, hx, hs, hc]

theorem checkPending_cons_dup (g : String) (fs : SampleFS) (x : String)
    (rest : List String) (reg : Registry) (s : String)
    (hx : lookupFS fs x = some (some s)) (hs : s.isEmpty = false)
    (hc : (check_and_register reg g s x).1 = false) :
    checkPending g fs (x :: rest) reg =
      ⟨(checkPending g fs rest (check_and_register reg g s x).2).added,
        x :: (checkPending g fs rest (check_and_register reg g s x).2).dups,
        (checkPending g fs rest (check_and_register reg g s x).2).reg⟩ := by
  simp [checkPending, hx, hs, hc]

theorem checkPending_classify (g : String) (fs : SampleFS) :
    ∀ (pending : List String) (reg : Registry) (id : String), id ∈ pending →
      id ∈ (checkPending g fs pending reg).added ∨
      id ∈ (checkPending g fs pending reg).dups ∨
      lookupFS fs id = none := by
  intro pending
  induction pending with
  | nil => intro reg id hmem; simp at hmem
  | cons x rest ih =>
    intro reg id hmem
    rcases hx : lookupFS fs x with _ | ph
    · rw [checkPending_cons_missing g fs x rest reg hx]
      rcases List.mem_cons.mp hmem with he | ht
      · subst he
        exact Or.inr (Or.inr hx)
      · exact ih reg id ht
    · rcases ph with _ | s
      · rw [checkPending_cons_nohash g fs x rest reg hx]
        rcases List.mem_cons.mp hmem with he | ht
        · subst he
          exact Or.inl (by simp)
        · rcases ih reg id ht with ha | hd | hn
          · exact Or.inl (by simp [ha])
          · exact Or.inr (Or.inl hd)
          · exact Or.inr (Or.inr hn)
      · cases hs : s.isEmpty with
        | true =>
          rw [checkPending_cons_emptyhash g fs x rest reg s hx hs]
          rcases List.mem_cons.mp hmem with he | ht
          · subst he
            exact Or.inl (by simp)
          · rcases ih reg id ht with ha | hd | hn
            · exact Or.inl (by simp [ha])
            · exact Or.inr (Or.inl hd)
            · exact Or.inr (Or.inr hn)
        | false =>
          cases hc : (check_and_register reg g s x).1 with
          | true =>
            rw [checkPending_cons_ok g fs x rest reg s hx hs hc]
            rcases List.mem_cons.mp hmem with he | ht
            · subst he
              exact Or.inl (by simp)
            · rcases ih (check_and_register reg g s x).2 id ht with ha | hd | hn
              · exact Or.inl (by simp [ha])
              · exact Or.inr (Or.inl hd)
              · exact Or.inr (Or.inr hn)
          | false =>
            rw [checkPending_cons_dup g fs x rest reg s hx hs hc]
            rcases List.mem_cons.mp hmem with he | ht
            · subst he
              exact Or.inr (Or.inl (by simp))
            · rcases ih (check_and_register reg g s x).2 id ht with ha | hd | hn
              · exact Or.inl ha
              · exact Or.inr (Or.inl (by simp [hd]))
              · exact Or.inr (Or.inr hn)

theorem checkPending_length (g : String) (fs : SampleFS) :
    ∀ (pending : List String) (reg : Registry),
      (checkPending g fs pending reg).added.length +
        (checkPending g fs pending reg).dups.length ≤ pending.length := by
  intro pending
  induction pending with
  | nil => intro reg; simp [checkPending_nil]
  | cons x rest ih =>
    intro reg
    rcases hx : lookupFS fs x with _ | ph
    · rw [checkPending_cons_missing g fs x rest reg hx]
      have := ih reg
      simp only [List.length_cons]
      omega
    · rcases ph with _ | s
      · rw [checkPending_cons_nohash g fs x rest reg hx]
        have := ih reg
        simp only [List.length_cons, List.length_cons]
        simp only [List.length_cons] at this ⊢
        omega
      · cases hs : s.isEmpty with
        | true =>
          rw [checkPending_cons_emptyhash g fs x rest reg s hx hs]
          have := ih reg
          simp only [List.length_cons]
          omega
        | false =>
          cases hc : (check_and_register reg g s x).1 with
          | true =>
            rw [checkPending_cons_ok g fs x rest reg s hx hs hc]
            have := ih (check_and_register reg g s x).2
            simp only [List.length_cons]
            omega
          | false =>
            rw [checkPending_cons_dup g fs x rest reg s hx hs hc]
            have := ih (check_and_register reg g s x).2
            simp only [List.length_cons]
            omega

theorem checkPending_dups_subset (g : String) (fs : SampleFS) :
    ∀ (pending : List String) (reg : Registry) (id : String),
      id ∈ (checkPending g fs pending reg).dups → id ∈ pending := by
  intro pending
  induction pending with
  | nil => intro reg id hmem; simp [checkPending_nil] at hmem
  | cons x rest ih =>
    intro reg id hmem
    rcases hx : lookupFS fs x with _ | ph
    · rw [checkPending_cons_missing g fs x rest reg hx] at hmem
      exact List.mem_cons_of_mem x (ih reg id hmem)
    · rcases ph with _ | s
      · rw [checkPending_cons_nohash g fs x rest reg hx] at hmem
        exact List.mem_cons_of_mem x (ih reg id hmem)
      · cases hs : s.isEmpty with
        | true =>
          rw [checkPending_cons_emptyhash g fs x rest reg s hx hs] at hmem
          exact List.mem_cons_of_mem x (ih reg id hmem)
        | false =>
          cases hc : (check_and_register reg g s x).1 with
          | true =>
            rw [checkPending_cons_ok g fs x rest reg s hx hs hc] at hmem
            exact List.mem_cons_of_mem x (ih (check_and_register reg g s x).2 id hmem)
          | false =>
            rw [checkPending_cons_dup g fs x rest reg s hx hs hc] at hmem
            rcases List.mem_cons.mp hmem with he | ht
            · exact he ▸ List.mem_cons_self x rest
            · exact List.mem_cons_of_mem x (ih (check_and_register reg g s x).2 id ht)

theorem dedupLoop_zero (g : String) (gen : Nat → Option (List (List Candidate)))
    (pending : List String) (fs : SampleFS) (reg : Registry) (t : Nat)
    (uniq : List String) (reqs : List Nat) (rounds : Nat) :
    dedupLoop g gen pending fs reg t uniq reqs rounds 0 =
      ⟨uniq, fs, reg, t, reqs, rounds⟩ := rfl

theorem dedupLoop_succ_nodups (g : String) (gen : Nat → Option (List (List Candidate)))
    (pending : List String) (fs : SampleFS) (reg : Registry) (t : Nat)
    (uniq : List String) (reqs : List Nat) (rounds left : Nat)
    (hd : (checkPending g fs pending reg).dups.isEmpty = true) :
    dedupLoop g gen pending fs reg t uniq reqs rounds (left + 1) =
      ⟨uniq ++ (checkPending g fs pending reg).added, fs,
        (checkPending g fs pending reg).reg, t, reqs, rounds⟩ := by
  simp [dedupLoop, hd]

theorem dedupLoop_one_final (g : String) (gen : Nat → Option (List (List Candidate)))
    (pending : List String) (fs : SampleFS) (reg : Registry) (t : Nat)
    (uniq : List String) (reqs : List Nat) (rounds : Nat)
    (hd : (checkPending g fs pending reg).dups.isEmpty = false) :
    dedupLoop g gen pending fs reg t uniq reqs rounds 1 =
      ⟨uniq ++ (checkPending g fs pending reg).added,
        (checkPending g fs pending reg).dups.foldl removeId fs,
        (checkPending g fs pending reg).reg, t, reqs, rounds⟩ := by
  simp [dedupLoop, hd]

theorem dedupLoop_succ_regen (g : String) (gen : Nat → Option (List (List Candidate)))
    (pending : List String) (fs : SampleFS) (reg : Registry) (t : Nat)
    (uniq : List String) (reqs : List Nat) (rounds left : Nat)
    (hd : (checkPending g fs pending reg).dups.isEmpty = false) (hleft : left ≠ 0) :
    dedupLoop g gen pending fs reg t uniq reqs rounds (left + 1) =
      dedupLoop g gen (checkPending g fs pending reg).dups
        (batch_regenerate gen (checkPending g fs pending reg).dups fs t).fs
        (checkPending g fs pending reg).reg
        (batch_regenerate gen (checkPending g fs pending reg).dups fs t).next
        (uniq ++ (checkPending g fs pending reg).added)
        (reqs ++ (batch_regenerate gen (checkPending g fs pending reg).dups fs t).reqs)
        (rounds + 1) left := by
  simp [dedupLoop, hd, hleft]

theorem batchRegen_untouched (gen : Nat → Option (List (List Candidate)))
    (dups : List String) :
    ∀ (fuel : Nat) (fs : SampleFS) (t : Nat) (id : String), id ∉ dups →
      lookupFS (batchRegen gen dups fs t fuel).fs id = lookupFS fs id := by
  intro fuel
  induction fuel with
  | zero =>
    intro fs t id hid
    simp only [batchRegen]
    rw [lookupFS_foldl_removeId, if_neg hid]
  | succ n ih =>
    intro fs t id hid
    cases hg : gen t with
    | none =>
      simp only [batchRegen, hg]
      exact ih fs (t + 1) id hid
    | some tds =>
      simp only [batchRegen, hg]
      exact pairReplace_untouched dups _ fs id hid

theorem batch_regenerate_untouched (gen : Nat → Option (List (List Candidate)))
    (dups : List String) (fs : SampleFS) (t : Nat) (id : String) (hid : id ∉ dups) :
    lookupFS (batch_regenerate gen dups fs t).fs id = lookupFS fs id :=
  batchRegen_untouched gen dups MAX_DEDUP_RETRIES fs t id hid

theorem dedupLoop_rounds_le (g : String) (gen : Nat → Option (List (List Candidate))) :
    ∀ (fuel : Nat) (pending : List String) (fs : SampleFS) (reg : Registry) (t : Nat)
      (uniq : List String) (reqs : List Nat) (rounds : Nat),
      (dedupLoop g gen pending fs reg t uniq reqs rounds fuel).rounds ≤
        rounds + (fuel - 1) := by
  intro fuel
  induction fuel with
  | zero =>
    intro pending fs reg t uniq reqs rounds
    simp [dedupLoop_zero]
  | succ left ih =>
    intro pending fs reg t uniq reqs rounds
    cases hd : (checkPending g fs pending reg).dups.isEmpty with
    | true =>
      rw [dedupLoop_succ_nodups g gen pending fs reg t uniq reqs rounds left hd]
      simp
    | false =>
      by_cases hleft : left = 0
      · subst hleft
        rw [dedupLoop_one_final g gen pending fs reg t uniq reqs rounds hd]
        simp
      · rw [dedupLoop_succ_regen g gen pending fs reg t uniq reqs rounds left hd hleft]
        have hrec := ih (checkPending g fs pending reg).dups
          (batch_regenerate gen (checkPending g fs pending reg).dups fs t).fs
          (checkPending g fs pending reg).reg
          (batch_regenerate gen (checkPending g fs pending reg).dups fs t).next
          (uniq ++ (checkPending g fs pending reg).added)
          (reqs ++ (batch_regenerate gen (checkPending g fs pending reg).dups fs t).reqs)
          (rounds + 1)
        omega

theorem dedupLoop_uniq_length (g : String) (gen : Nat → Option (List (List Candidate))) :
    ∀ (fuel : Nat) (pending : List String) (fs : SampleFS) (reg : Registry) (t : Nat)
      (uniq : List String) (reqs : List Nat) (rounds : Nat),
      (dedupLoop g gen pending fs reg t uniq reqs rounds fuel).uniq.length ≤
        uniq.length + pending.length := by
  intro fuel
  induction fuel with
  | zero =>
    intro pending fs reg t uniq reqs rounds
    simp [dedupLoop_zero]
  | succ left ih =>
    intro pending fs reg t uniq reqs rounds
    have hlen := checkPending_length g fs pending reg
    cases hd : (checkPending g fs pending reg).dups.isEmpty with
    | true =>
      rw [dedupLoop_succ_nodups g gen pending fs reg t uniq reqs rounds left hd]
      simp only [List.length_append]
      omega
    | false =>
      by_cases hleft : left = 0
      · subst hleft
        rw [dedupLoop_one_final g gen pending fs reg t uniq reqs rounds hd]
        simp only [List.length_append]
        omega
      · rw [dedupLoop_succ_regen g gen pending fs reg t uniq reqs rounds left hd hleft]
        have hrec := ih (checkPending g fs pending reg).dups
          (batch_regenerate gen (checkPending g fs pending reg).dups fs t).fs
          (checkPending g fs pending reg).reg
          (batch_regenerate gen (checkPending g fs pending reg).dups fs t).next
          (uniq ++ (checkPending g fs pending reg).added)
          (reqs ++ (batch_regenerate gen (checkPending g fs pending reg).dups fs t).reqs)
          (rounds + 1)
        simp only [List.length_append] at hrec
        omega

theorem dedupLoop_uniq_mono (g : String) (gen : Nat → Option (List (List Candidate))) :
    ∀ (fuel : Nat) (pending : List String) (fs : SampleFS) (reg : Registry) (t : Nat)
      (uniq : List String) (reqs : List Nat) (rounds : Nat) (x : String), x ∈ uniq →
      x ∈ (dedupLoop g gen pending fs reg t uniq reqs rounds fuel).uniq := by
  intro fuel
  induction fuel with
  | zero =>
    intro pending fs reg t uniq reqs rounds x hx
    simpa [dedupLoop_zero] using hx
  | succ left ih =>
    intro pending fs reg t uniq reqs rounds x hx
    cases hd : (checkPending g fs pending reg).dups.isEmpty with
    | true =>
      rw [dedupLoop_succ_nodups g gen pending fs reg t uniq reqs rounds left hd]
      exact List.mem_append_left _ hx
    | false =>
      by_cases hleft : left = 0
      · subst hleft
        rw [dedupLoop_one_final g gen pending fs reg t uniq reqs rounds hd]
        exact List.mem_append_left _ hx
      · rw [dedupLoop_succ_regen g gen pending fs reg t uniq reqs rounds left hd hleft]
        exact ih _ _ _ _ _ _ _ x (List.mem_append_left _ hx)

theorem dedupLoop_fs_untouched (g : String) (gen : Nat → Option (List (List Candidate))) :
    ∀ (fuel : Nat) (pending : List String) (fs : SampleFS) (reg : Registry) (t : Nat)
      (uniq : List String) (reqs : List Nat) (rounds : Nat) (id : String), id ∉ pending →
      lookupFS (dedupLoop g gen pending fs reg t uniq reqs rounds fuel).fs id =
        lookupFS fs id := by
  intro fuel
  induction fuel with
  | zero =>
    intro pending fs reg t uniq reqs rounds id _
    rw [dedupLoop_zero]
  | succ left ih =>
    intro pending fs reg t uniq reqs rounds id hid
    have hnotdup : id ∉ (checkPending g fs pending reg).dups := fun hmem =>
      hid (checkPending_dups_subset g fs pending reg id hmem)
    cases hd : (checkPending g fs pending reg).dups.isEmpty with
    | true =>
      rw [dedupLoop_succ_nodups g gen pending fs reg t uniq reqs rounds left hd]
    | false =>
      by_cases hleft : left = 0
      · subst hleft
        rw [dedupLoop_one_final g gen pending fs reg t uniq reqs rounds hd]
        simp only
        rw [lookupFS_foldl_removeId, if_neg hnotdup]
      · rw [dedupLoop_succ_regen g gen pending fs reg t uniq reqs rounds left hd hleft]
        rw [ih _ _ _ _ _ _ _ id hnotdup]
        exact batch_regenerate_untouched gen _ fs t id hnotdup

theorem dedupLoop_classify (g : String) (gen : Nat → Option (List (List Candidate))) :
    ∀ (fuel : Nat), 1 ≤ fuel →
      ∀ (pending : List String) (fs : SampleFS) (reg : Registry) (t : Nat)
        (uniq : List String) (reqs : List Nat) (rounds : Nat) (id : String), id ∈ pending →
        id ∈ (dedupLoop g gen pending fs reg t uniq reqs rounds fuel).uniq ∨
        lookupFS (dedupLoop g gen pending fs reg t uniq reqs rounds fuel).fs id = none := by
  intro fuel
  induction fuel with
  | zero => intro hcontra; exact absurd hcontra (by decide)
  | succ left ih =>
    intro _ pending fs reg t uniq reqs rounds id hid
    have hcls := checkPending_classify g fs pending reg id hid
    cases hd : (checkPending g fs pending reg).dups.isEmpty with
    | true =>
      rw [dedupLoop_succ_nodups g gen pending fs reg t uniq reqs rounds left hd]
      have hdnil : (checkPending g fs pending reg).dups = [] := by
        simpa using hd
      rcases hcls with ha | hdup | hn
      · exact Or.inl (List.mem_append_right _ ha)
      · rw [hdnil] at hdup
        simp at hdup
      · exact Or.inr hn
    | false =>
      by_cases hleft : left = 0
      · subst hleft
        rw [dedupLoop_one_final g gen pending fs reg t uniq reqs rounds hd]
        rcases hcls with ha | hdup | hn
        · exact Or.inl (List.mem_append_right _ ha)
        · refine Or.inr ?_
          simp only
          rw [lookupFS_foldl_removeId, if_pos hdup]
        · refine Or.inr ?_
          simp only
          rw [lookupFS_foldl_removeId]
          by_cases hdup : id ∈ (checkPending g fs pending reg).dups
          · rw [if_pos hdup]
          · rw [if_neg hdup]
            exact hn
      · rw [dedupLoop_succ_regen g gen pending fs reg t uniq reqs rounds left hd hleft]
        by_cases hdup : id ∈ (checkPending g fs pending reg).dups
        · exact ih (Nat.one_le_iff_ne_zero.mpr hleft) _ _ _ _ _ _ _ id hdup
        · rcases hcls with ha | hdup2 | hn
          · exact Or.inl (dedupLoop_uniq_mono g gen left _ _ _ _ _ _ _ id
              (List.mem_append_right _ ha))
          · exact absurd hdup2 hdup
          · refine Or.inr ?_
            rw [dedupLoop_fs_untouched g gen left _ _ _ _ _ _ _ id hdup]
            rw [batch_regenerate_untouched gen _ fs t id hdup]
            exact hn

/-- **C3** — Bounded convergence of `_dedup_samples`.  For every input
batch of ids, filesystem, registry, table configuration and generator
behaviour: at most `MAX_DEDUP_RETRIES` (= 3) regeneration rounds are
performed; the final accepted list never holds more ids than the input
batch; and every input id is either in the final accepted list or its
sample directory is gone — in particular every duplicate remaining when
the round bound is reached has been deleted and dropped from the
output. -/
theorem C3_dedup_convergence (tableName : Option String) (g : String)
    (gen : Nat → Option (List (List Candidate))) (renamed : List String)
    (fs : SampleFS) (reg : Registry) :
    (dedup_samples tableName g gen renamed fs reg).rounds ≤ MAX_DEDUP_RETRIES ∧
    (dedup_samples tableName g gen renamed fs reg).uniq.length ≤ renamed.length ∧
    ∀ id ∈ renamed,
      id ∈ (dedup_samples tableName g gen renamed fs reg).uniq ∨
      lookupFS (dedup_samples tableName g gen renamed fs reg).fs id = none := by
  by_cases hcfg : (tableName.getD "").isEmpty = true
  · simp only [dedup_samples, hcfg, if_true]
    exact ⟨by simp [MAX_DEDUP_RETRIES], le_refl _, fun id hid => Or.inl hid⟩
  · simp only [dedup_samples, hcfg, Bool.false_eq_true, if_false]
    refine ⟨?_, ?_, ?_⟩
    · have h := dedupLoop_rounds_le g gen (MAX_DEDUP_RETRIES + 1) renamed fs reg 0 [] [] 0
      simpa using h
    · have h := dedupLoop_uniq_length g gen (MAX_DEDUP_RETRIES + 1) renamed fs reg 0 [] [] 0
      simpa using h
    · intro id hid
      exact dedupLoop_classify g gen (MAX_DEDUP_RETRIES + 1) (by simp) renamed fs reg 0
        [] [] 0 id hid
